import Mathlib

/-!
Verification of the auto_trader market-data collector core.

This file gives a shallow embedding of the parts of the source that the
claims are about:

* `src/common/util.py` — the collection-name codec
  (`convert_timestamp2name`, `collection_name2time`) and the signal
  trapping logic (`trap_signals`);
* `src/data_collector/database_collection.py` — the bucket rotator's
  writer (`DatabaseCollection.insert`) and the backup pipeline
  (`DatabaseCollection.backup_collection`);
* `src/data_collector/custom_websocket_events.py` — the stream event
  handler (`on_response`, `update`, `reset_book`, `get_missing_trades`);
* `trade_data_collector.py` — the supervisor's reconnect back-off and
  the signal handlers' exit codes.

Timestamps are modelled as integers (only their ordering matters to the
code under verification); machine strings are modelled as `List Char`
where character-level parsing matters and as `String` elsewhere.
-/

/- ## Collection-name codec (src/common/util.py) -/

/-- Decimal digit character, as produced by Python's `str` / `format` on a
nonnegative integer digit value.  Values above 9 never arise. -/
def dChar : Nat → Char
  | 0 => '0'
  | 1 => '1'
  | 2 => '2'
  | 3 => '3'
  | 4 => '4'
  | 5 => '5'
  | 6 => '6'
  | 7 => '7'
  | 8 => '8'
  | _ => '9'

/-- Fuelled decimal rendering; `fuel` bounds the number of digits. -/
def natDigitsAux : Nat → Nat → List Char
  | 0, _ => []
  | fuel + 1, n =>
    if n < 10 then [dChar n] else natDigitsAux fuel (n / 10) ++ [dChar (n % 10)]

/-- Decimal rendering of a natural number, as Python's `"{}".format(n)`
renders a nonnegative `int`. -/
def natDigits (n : Nat) : List Char :=
  natDigitsAux (n + 1) n

/-- A naive datetime value (`datetime.datetime` restricted to the fields the
codec manipulates; microseconds are never inspected by the codec). -/
structure DT where
  year : Nat
  month : Nat
  day : Nat
  hour : Nat
  minute : Nat
  second : Nat
deriving DecidableEq, Repr

/-- The five supported bucket cadences. -/
inductive IntervalKind where
  | every_minute
  | every_hour
  | every_day
  | every_month
  | every_year
deriving DecidableEq, Repr

/-- `convert_timestamp2name` from `src/common/util.py`: build the canonical
bucket name `prefix_Y_M_D_H_Min_suffix`, where fields finer than the
interval are the literal `0` and the suffix encodes the interval.  The
Python `"{}_{}_{}_{}_{}_{}_{}".format(...)` call is rendered here by decimal
digits joined with underscores. -/
def convert_timestamp2name (interval : IntervalKind) (pfx : List Char) (t : DT) : List Char :=
  match interval with
  | .every_minute =>
      pfx ++ '_' :: natDigits t.year ++ '_' :: natDigits t.month ++ '_' :: natDigits t.day
        ++ '_' :: natDigits t.hour ++ '_' :: natDigits t.minute ++ '_' :: ['m', 'i', 'n']
  | .every_hour =>
      pfx ++ '_' :: natDigits t.year ++ '_' :: natDigits t.month ++ '_' :: natDigits t.day
        ++ '_' :: natDigits t.hour ++ '_' :: natDigits 0 ++ '_' :: ['h']
  | .every_day =>
      pfx ++ '_' :: natDigits t.year ++ '_' :: natDigits t.month ++ '_' :: natDigits t.day
        ++ '_' :: natDigits 0 ++ '_' :: natDigits 0 ++ '_' :: ['d']
  | .every_month =>
      pfx ++ '_' :: natDigits t.year ++ '_' :: natDigits t.month ++ '_' :: natDigits 0
        ++ '_' :: natDigits 0 ++ '_' :: natDigits 0 ++ '_' :: ['m']
  | .every_year =>
      pfx ++ '_' :: natDigits t.year ++ '_' :: natDigits 0 ++ '_' :: natDigits 0
        ++ '_' :: natDigits 0 ++ '_' :: natDigits 0 ++ '_' :: ['y']

/-- Character class of the regex body `(\d|_)`. -/
def classChar (c : Char) : Bool :=
  c.isDigit || c = '_'

/-- Greedy backtracking of `(\d|_)*` under the lookahead `(?=_)`: given the
text at the attempt position and a candidate match length, return the
longest length `k` at or below the candidate such that the character right
after the first `k` characters is `'_'`. -/
def lookaheadBack (rest : List Char) : Nat → Option Nat
  | 0 => if rest.head? = some '_' then some 0 else none
  | k + 1 =>
    if (rest.drop (k + 1)).head? = some '_' then some (k + 1) else lookaheadBack rest k

/-- One attempt of the regex `(?<=_)(\d|_)*(?=_)` at a fixed position (the
lookbehind has already been checked by the caller): match `(\d|_)*`
greedily, backtracking until the next character is `'_'`. -/
def reAttempt (rest : List Char) : Option (List Char) :=
  match lookaheadBack rest (rest.takeWhile classChar).length with
  | some k => some (rest.take k)
  | none => none

/-- Left-to-right scan of `re.search(r"(?<=_)(\d|_)*(?=_)", x)`: `prev` is
the character before the current position; an attempt is made exactly at the
positions whose preceding character is `'_'`, and the leftmost successful
attempt wins. -/
def reScanAux : Char → List Char → Option (List Char)
  | prev, [] => if prev = '_' then reAttempt [] else none
  | prev, c :: cs =>
    if prev = '_' then
      match reAttempt (c :: cs) with
      | some m => some m
      | none => reScanAux c cs
    else reScanAux c cs

/-- `re.search(r"(?<=_)(\d|_)*(?=_)", x)`: position 0 has no preceding
character, so the scan starts at position 1. -/
def reScan : List Char → Option (List Char)
  | [] => none
  | c :: cs => reScanAux c cs

/-- Numeric value of a decimal digit character. -/
def dVal (c : Char) : Nat :=
  c.toNat - 48

/-- `%Y` of CPython `_strptime` (`\d\d\d\d`): exactly four digits, here
followed by the literal `'_'` of the format. -/
def pYear : List Char → Option (Nat × List Char)
  | a :: b :: c :: d :: rest =>
    if a.isDigit ∧ b.isDigit ∧ c.isDigit ∧ d.isDigit then
      match rest with
      | '_' :: r => some (1000 * dVal a + 100 * dVal b + 10 * dVal c + dVal d, r)
      | _ => none
    else none
  | _ => none

/-- `%m` of CPython `_strptime` (`1[0-2]|0[1-9]|[1-9]`), each alternative
followed by the literal `'_'`.  The alternatives (with that separator) are
pairwise exclusive, so trying them in order is the regex semantics. -/
def pMonth (s : List Char) : Option (Nat × List Char) :=
  match s with
  | a :: b :: rest =>
    if a = '1' ∧ '0' ≤ b ∧ b ≤ '2' then
      match rest with
      | '_' :: r => some (10 + dVal b, r)
      | _ => pMonthOne s
    else pMonthTwo s
  | _ => pMonthTwo s
where
  /-- Alternative `0[1-9]` then the remaining single-digit fallback. -/
  pMonthTwo (s : List Char) : Option (Nat × List Char) :=
    match s with
    | a :: b :: rest =>
      if a = '0' ∧ '1' ≤ b ∧ b ≤ '9' then
        match rest with
        | '_' :: r => some (dVal b, r)
        | _ => pMonthOne s
      else pMonthOne s
    | _ => pMonthOne s
  /-- Alternative `[1-9]`. -/
  pMonthOne : List Char → Option (Nat × List Char)
    | a :: '_' :: r => if '1' ≤ a ∧ a ≤ '9' then some (dVal a, r) else none
    | _ => none

/-- `%d` of CPython `_strptime` (`3[01]|[12]\d|0[1-9]|[1-9]| [1-9]`), each
alternative followed by the literal `'_'`; alternatives are pairwise
exclusive. -/
def pDay (s : List Char) : Option (Nat × List Char) :=
  match s with
  | a :: b :: rest =>
    if a = '3' ∧ '0' ≤ b ∧ b ≤ '1' then
      match rest with
      | '_' :: r => some (30 + dVal b, r)
      | _ => pDayTens s
    else pDayTens s
  | _ => pDayTens s
where
  /-- Alternative `[12]\d`. -/
  pDayTens (s : List Char) : Option (Nat × List Char) :=
    match s with
    | a :: b :: rest =>
      if ('1' ≤ a ∧ a ≤ '2') ∧ b.isDigit then
        match rest with
        | '_' :: r => some (10 * dVal a + dVal b, r)
        | _ => pDayPad s
      else pDayPad s
    | _ => pDayPad s
  /-- Alternative `0[1-9]`. -/
  pDayPad (s : List Char) : Option (Nat × List Char) :=
    match s with
    | a :: b :: rest =>
      if a = '0' ∧ '1' ≤ b ∧ b ≤ '9' then
        match rest with
        | '_' :: r => some (dVal b, r)
        | _ => pDayOne s
      else pDayOne s
    | _ => pDayOne s
  /-- Alternative `[1-9]`. -/
  pDayOne (s : List Char) : Option (Nat × List Char) :=
    match s with
    | a :: rest =>
      if '1' ≤ a ∧ a ≤ '9' then
        match rest with
        | '_' :: r => some (dVal a, r)
        | _ => pDaySpace s
      else pDaySpace s
    | _ => pDaySpace s
  /-- Alternative ` [1-9]` (space-padded day). -/
  pDaySpace (s : List Char) : Option (Nat × List Char) :=
    match s with
    | a :: b :: rest =>
      if a = ' ' ∧ '1' ≤ b ∧ b ≤ '9' then
        match rest with
        | '_' :: r => some (dVal b, r)
        | _ => none
      else none
    | _ => none

/-- `%H` of CPython `_strptime` (`2[0-3]|[0-1]\d|\d`), each alternative
followed by the literal `'_'`; alternatives are pairwise exclusive. -/
def pHour (s : List Char) : Option (Nat × List Char) :=
  match s with
  | a :: b :: rest =>
    if a = '2' ∧ '0' ≤ b ∧ b ≤ '3' then
      match rest with
      | '_' :: r => some (20 + dVal b, r)
      | _ => pHourTens s
    else pHourTens s
  | _ => pHourTens s
where
  /-- Alternative `[0-1]\d`. -/
  pHourTens (s : List Char) : Option (Nat × List Char) :=
    match s with
    | a :: b :: rest =>
      if ('0' ≤ a ∧ a ≤ '1') ∧ b.isDigit then
        match rest with
        | '_' :: r => some (10 * dVal a + dVal b, r)
        | _ => pHourOne s
      else pHourOne s
    | _ => pHourOne s
  /-- Alternative `\d`. -/
  pHourOne (s : List Char) : Option (Nat × List Char) :=
    match s with
    | a :: rest =>
      if a.isDigit then
        match rest with
        | '_' :: r => some (dVal a, r)
        | _ => none
      else none
    | _ => none

/-- `%M` of CPython `_strptime` (`[0-5]\d|\d`), anchored at the end of the
data string (any unconverted trailing data raises `ValueError`). -/
def pMinute : List Char → Option Nat
  | [a, b] =>
    if ('0' ≤ a ∧ a ≤ '5') ∧ b.isDigit then some (10 * dVal a + dVal b)
    else none
  | [a] => if a.isDigit then some (dVal a) else none
  | _ => none

/-- Gregorian leap year, as `datetime`'s calendar. -/
def isLeap (y : Nat) : Bool :=
  (y % 4 = 0 && y % 100 ≠ 0) || y % 400 = 0

/-- Days in a month, as validated by the `datetime` constructor. -/
def daysInMonth (y m : Nat) : Nat :=
  if m = 2 then (if isLeap y then 29 else 28)
  else if m = 4 ∨ m = 6 ∨ m = 9 ∨ m = 11 then 30
  else 31

/-- `datetime.strptime(s, '%Y_%m_%d_%H_%M')`: the field patterns of CPython
`_strptime` separated by literal underscores, then the `datetime`
constructor's range validation.  `none` models a raised `ValueError`. -/
def strptimeYmdHM (s : List Char) : Option DT :=
  match pYear s with
  | none => none
  | some (y, r1) =>
    match pMonth r1 with
    | none => none
    | some (mo, r2) =>
      match pDay r2 with
      | none => none
      | some (d, r3) =>
        match pHour r3 with
        | none => none
        | some (h, r4) =>
          match pMinute r4 with
          | none => none
          | some mi =>
            if 1 ≤ y ∧ y ≤ 9999 ∧ 1 ≤ mo ∧ mo ≤ 12 ∧ 1 ≤ d ∧ d ≤ daysInMonth y mo
                ∧ h ≤ 23 ∧ mi ≤ 59 then
              some ⟨y, mo, d, h, mi, 0⟩
            else none

/-- `collection_name2time` from `src/common/util.py`: search the name for
`(?<=_)(\d|_)*(?=_)` and parse the match with `'%Y_%m_%d_%H_%M'`.  `none`
covers both a failed search (the Python function returns `None`) and a
`strptime` failure (the Python function raises `ValueError`); the claims
only concern successful parses. -/
def collection_name2time (x : List Char) : Option DT :=
  match reScan x with
  | none => none
  | some ts => strptimeYmdHM ts

/-- Modelled from the spec: `floor(t, interval)` — the time `t` with the
fields finer than the interval reset to their minimum (1 for month and day,
0 for hour, minute and second). -/
def floorTime (interval : IntervalKind) (t : DT) : DT :=
  match interval with
  | .every_minute => ⟨t.year, t.month, t.day, t.hour, t.minute, 0⟩
  | .every_hour => ⟨t.year, t.month, t.day, t.hour, 0, 0⟩
  | .every_day => ⟨t.year, t.month, t.day, 0, 0, 0⟩
  | .every_month => ⟨t.year, t.month, 1, 0, 0, 0⟩
  | .every_year => ⟨t.year, 1, 1, 0, 0, 0⟩

/- ## Lemmas about decimal rendering -/

theorem dChar_cases (v : Nat) :
    dChar v = '0' ∨ dChar v = '1' ∨ dChar v = '2' ∨ dChar v = '3' ∨ dChar v = '4' ∨
      dChar v = '5' ∨ dChar v = '6' ∨ dChar v = '7' ∨ dChar v = '8' ∨ dChar v = '9' := by
  unfold dChar
  split <;> simp

theorem isDigit_dChar (v : Nat) : (dChar v).isDigit = true := by
  rcases dChar_cases v with h | h | h | h | h | h | h | h | h | h <;> rw [h] <;> decide

theorem classChar_dChar (v : Nat) : classChar (dChar v) = true := by
  simp [classChar, isDigit_dChar]

theorem dVal_dChar (v : Nat) (h : v ≤ 9) : dVal (dChar v) = v := by
  interval_cases v <;> decide

theorem natDigitsAux_small (f n : Nat) (h : n ≤ 9) :
    natDigitsAux (f + 1) n = [dChar n] := by
  rw [natDigitsAux, if_pos (by omega)]

theorem natDigitsAux_step (f n : Nat) (h : 10 ≤ n) :
    natDigitsAux (f + 1) n = natDigitsAux f (n / 10) ++ [dChar (n % 10)] := by
  rw [natDigitsAux, if_neg (by omega)]

theorem natDigitsAux_four (f y : Nat) (hf : 4 ≤ f) (h1 : 1000 ≤ y) (h2 : y ≤ 9999) :
    natDigitsAux f y =
      [dChar (y / 1000), dChar (y / 100 % 10), dChar (y / 10 % 10), dChar (y % 10)] := by
  obtain ⟨g, rfl⟩ : ∃ g, f = g + 4 := ⟨f - 4, by omega⟩
  rw [show g + 4 = (g + 3) + 1 by omega, natDigitsAux_step _ y (by omega),
    show g + 3 = (g + 2) + 1 by omega, natDigitsAux_step _ (y / 10) (by omega),
    show y / 10 / 10 = y / 100 by omega,
    show g + 2 = (g + 1) + 1 by omega, natDigitsAux_step _ (y / 100) (by omega),
    show y / 100 / 10 = y / 1000 by omega,
    natDigitsAux_small _ (y / 1000) (by omega)]
  simp

theorem natDigits_four (y : Nat) (h1 : 1000 ≤ y) (h2 : y ≤ 9999) :
    natDigits y =
      [dChar (y / 1000), dChar (y / 100 % 10), dChar (y / 10 % 10), dChar (y % 10)] := by
  rw [natDigits]
  exact natDigitsAux_four (y + 1) y (by omega) h1 h2

theorem natDigits_class (n : Nat) : ∀ c ∈ natDigits n, classChar c = true := by
  rw [natDigits]
  generalize n + 1 = f
  induction f generalizing n with
  | zero => simp [natDigitsAux]
  | succ f ih =>
    intro c hc
    rw [natDigitsAux] at hc
    by_cases h : n < 10
    · rw [if_pos h] at hc
      simp at hc
      rw [hc]; exact classChar_dChar n
    · rw [if_neg h] at hc
      rcases List.mem_append.mp hc with h' | h'
      · exact ih (n / 10) c h'
      · simp at h'
        rw [h']; exact classChar_dChar (n % 10)

/- ## Lemmas about the regex search -/

theorem takeWhile_append_all (p : Char → Bool) (l r : List Char)
    (h : ∀ c ∈ l, p c = true) :
    (l ++ r).takeWhile p = l ++ r.takeWhile p := by
  induction l with
  | nil => simp
  | cons c cs ih =>
    have hc : p c = true := h c (by simp)
    rw [List.cons_append, List.takeWhile_cons, hc, if_pos rfl,
      ih (fun d hd => h d (by simp [hd]))]
    rfl

theorem lookaheadBack_hit (rest : List Char) (k : Nat)
    (h : (rest.drop k).head? = some '_') : lookaheadBack rest k = some k := by
  cases k with
  | zero =>
    rw [lookaheadBack, if_pos (by simpa using h)]
  | succ k => rw [lookaheadBack, if_pos h]

theorem reAttempt_sep (ts : List Char) (s0 : Char) (s' : List Char)
    (hts : ∀ c ∈ ts, classChar c = true) (hs0 : classChar s0 = false) :
    reAttempt (ts ++ '_' :: s0 :: s') = some ts := by
  have hs0ne : s0 ≠ '_' := by
    intro h; rw [h] at hs0; simp [classChar] at hs0
  have hrun : (ts ++ '_' :: s0 :: s').takeWhile classChar = ts ++ ['_'] := by
    rw [takeWhile_append_all classChar ts _ hts, List.takeWhile_cons]
    have h2 : classChar '_' = true := by decide
    rw [h2, if_pos rfl, List.takeWhile_cons, hs0]
    simp
  have hdrop1 : (ts ++ '_' :: s0 :: s').drop (ts.length + 1) = s0 :: s' := by
    have he : ts ++ '_' :: s0 :: s' = (ts ++ ['_']) ++ s0 :: s' := by simp
    have hl : ts.length + 1 = (ts ++ ['_']).length := by simp
    rw [he, hl, List.drop_left]
  have hdrop0 : (ts ++ '_' :: s0 :: s').drop ts.length = '_' :: s0 :: s' :=
    List.drop_left ts _
  rw [reAttempt, hrun]
  have hlen : (ts ++ ['_']).length = ts.length + 1 := by simp
  rw [hlen, lookaheadBack, hdrop1]
  rw [if_neg (by simp [hs0ne]), lookaheadBack_hit _ _ (by rw [hdrop0]; rfl)]
  exact congrArg some (List.take_left ts _)

theorem reScanAux_skip (p : List Char) (a : Char) (rest m : List Char)
    (ha : a ≠ '_') (hp : ∀ c ∈ p, c ≠ '_') (hm : reAttempt rest = some m) :
    reScanAux a (p ++ '_' :: rest) = some m := by
  induction p generalizing a with
  | nil =>
    rw [List.nil_append]
    rw [reScanAux, if_neg ha]
    cases rest with
    | nil => simp [reAttempt, lookaheadBack] at hm
    | cons c cs =>
      rw [reScanAux, if_pos rfl, hm]
  | cons q qs ih =>
    rw [List.cons_append, reScanAux, if_neg ha]
    exact ih q (hp q (by simp)) (fun c hc => hp c (by simp [hc]))

theorem reScan_sep (pfx rest m : List Char)
    (hp : ∀ c ∈ pfx, c ≠ '_') (hm : reAttempt rest = some m) :
    reScan (pfx ++ '_' :: rest) = some m := by
  cases pfx with
  | nil =>
    rw [List.nil_append, reScan]
    cases rest with
    | nil => simp [reAttempt, lookaheadBack] at hm
    | cons c cs => rw [reScanAux, if_pos rfl, hm]
  | cons a as =>
    rw [List.cons_append, reScan]
    exact reScanAux_skip as a _ m (hp a (by simp)) (fun c hc => hp c (by simp [hc])) hm

/- ## Field-level strptime lemmas -/

theorem pYear_digits (y : Nat) (r : List Char) (h1 : 1000 ≤ y) (h2 : y ≤ 9999) :
    pYear (natDigits y ++ '_' :: r) = some (y, r) := by
  rw [natDigits_four y h1 h2]
  show pYear (dChar (y / 1000) :: dChar (y / 100 % 10) :: dChar (y / 10 % 10) ::
    dChar (y % 10) :: '_' :: r) = some (y, r)
  rw [pYear, if_pos (by simp [isDigit_dChar])]
  rw [dVal_dChar _ (by omega), dVal_dChar _ (by omega), dVal_dChar _ (by omega),
    dVal_dChar _ (by omega)]
  congr 1
  simp only [Prod.mk.injEq, and_true]
  omega

theorem pMonth_digits (mo : Nat) (r : List Char) (h1 : 1 ≤ mo) (h2 : mo ≤ 12) :
    pMonth (natDigits mo ++ '_' :: r) = some (mo, r) := by
  interval_cases mo <;> rfl

theorem pDay_digits (d : Nat) (r : List Char) (h1 : 1 ≤ d) (h2 : d ≤ 31) :
    pDay (natDigits d ++ '_' :: r) = some (d, r) := by
  interval_cases d <;> rfl

theorem pHour_digits (h : Nat) (r : List Char) (hh : h ≤ 23) :
    pHour (natDigits h ++ '_' :: r) = some (h, r) := by
  interval_cases h <;> rfl

theorem pMinute_digits (mi : Nat) (h : mi ≤ 59) :
    pMinute (natDigits mi) = some mi := by
  interval_cases mi <;> rfl

theorem daysInMonth_le (y m : Nat) : daysInMonth y m ≤ 31 := by
  rw [daysInMonth]
  split
  · split <;> omega
  · split <;> omega

theorem strptime_digits (y mo d h mi : Nat)
    (hy1 : 1000 ≤ y) (hy2 : y ≤ 9999) (hmo1 : 1 ≤ mo) (hmo2 : mo ≤ 12)
    (hd1 : 1 ≤ d) (hd2 : d ≤ daysInMonth y mo) (hh : h ≤ 23) (hmi : mi ≤ 59) :
    strptimeYmdHM (natDigits y ++ '_' :: (natDigits mo ++ '_' :: (natDigits d ++ '_' ::
      (natDigits h ++ '_' :: natDigits mi)))) = some ⟨y, mo, d, h, mi, 0⟩ := by
  have hd31 : d ≤ 31 := le_trans hd2 (daysInMonth_le y mo)
  simp only [strptimeYmdHM, pYear_digits y _ hy1 hy2, pMonth_digits mo _ hmo1 hmo2,
    pDay_digits d _ hd1 hd31, pHour_digits h _ hh, pMinute_digits mi hmi]
  rw [if_pos]
  exact ⟨by omega, by omega, hmo1, hmo2, hd1, hd2, hh, hmi⟩

theorem tsClass (a b c d e : Nat) :
    ∀ ch ∈ natDigits a ++ '_' :: (natDigits b ++ '_' :: (natDigits c ++ '_' ::
      (natDigits d ++ '_' :: natDigits e))), classChar ch = true := by
  intro ch hch
  simp only [List.mem_append, List.mem_cons] at hch
  rcases hch with h | h | h | h | h | h | h | h | h
  all_goals first
    | exact natDigits_class _ _ h
    | (subst h; decide)

theorem alpha_ne_und (c : Char) (h : c.isAlpha = true) : c ≠ '_' := by
  intro hc
  subst hc
  exact absurd h (by decide)

/-- Claim C1 (amended): for the three intervals `every_minute`, `every_hour`
and `every_day`, a prefix made of letters, and a time with a four-digit year
and in-range calendar fields, parsing the canonical bucket name recovers the
time floored to the interval.  (For `every_month` and `every_year` the name
zeroes the day resp. month field, which `strptime` rejects, so the
round-trip of the original claim fails there; see the counterexample.) -/
theorem c1_name_round_trip (i : IntervalKind) (pfx : List Char) (t : DT)
    (hi : i = .every_minute ∨ i = .every_hour ∨ i = .every_day)
    (hp : ∀ c ∈ pfx, c.isAlpha = true)
    (hy1 : 1000 ≤ t.year) (hy2 : t.year ≤ 9999)
    (hmo1 : 1 ≤ t.month) (hmo2 : t.month ≤ 12)
    (hd1 : 1 ≤ t.day) (hd2 : t.day ≤ daysInMonth t.year t.month)
    (hh : t.hour ≤ 23) (hmi : t.minute ≤ 59) :
    collection_name2time (convert_timestamp2name i pfx t) = some (floorTime i t) := by
  have hp' : ∀ c ∈ pfx, c ≠ '_' := fun c hc => alpha_ne_und c (hp c hc)
  rcases hi with rfl | rfl | rfl
  · have hshape : convert_timestamp2name .every_minute pfx t =
        pfx ++ '_' :: ((natDigits t.year ++ '_' :: (natDigits t.month ++ '_' ::
          (natDigits t.day ++ '_' :: (natDigits t.hour ++ '_' :: natDigits t.minute))))
          ++ '_' :: 'm' :: 'i' :: 'n' :: []) := by
      simp [convert_timestamp2name, List.append_assoc]
    rw [hshape, collection_name2time,
      reScan_sep pfx _ _ hp' (reAttempt_sep _ 'm' _ (tsClass _ _ _ _ _) (by decide))]
    exact strptime_digits t.year t.month t.day t.hour t.minute hy1 hy2 hmo1 hmo2 hd1 hd2 hh hmi
  · have hshape : convert_timestamp2name .every_hour pfx t =
        pfx ++ '_' :: ((natDigits t.year ++ '_' :: (natDigits t.month ++ '_' ::
          (natDigits t.day ++ '_' :: (natDigits t.hour ++ '_' :: natDigits 0))))
          ++ '_' :: 'h' :: []) := by
      simp [convert_timestamp2name, List.append_assoc]
    rw [hshape, collection_name2time,
      reScan_sep pfx _ _ hp' (reAttempt_sep _ 'h' _ (tsClass _ _ _ _ _) (by decide))]
    exact strptime_digits t.year t.month t.day t.hour 0 hy1 hy2 hmo1 hmo2 hd1 hd2 hh (by omega)
  · have hshape : convert_timestamp2name .every_day pfx t =
        pfx ++ '_' :: ((natDigits t.year ++ '_' :: (natDigits t.month ++ '_' ::
          (natDigits t.day ++ '_' :: (natDigits 0 ++ '_' :: natDigits 0))))
          ++ '_' :: 'd' :: []) := by
      simp [convert_timestamp2name, List.append_assoc]
    rw [hshape, collection_name2time,
      reScan_sep pfx _ _ hp' (reAttempt_sep _ 'd' _ (tsClass _ _ _ _ _) (by decide))]
    exact strptime_digits t.year t.month t.day 0 0 hy1 hy2 hmo1 hmo2 hd1 hd2 (by omega) (by omega)

/-- Claim C1, witness for the amended round-trip at a concrete input. -/
theorem c1_name_round_trip_witness :
    collection_name2time
        (convert_timestamp2name .every_minute ['f', 'u', 'l', 'l'] ⟨2024, 7, 15, 12, 34, 56⟩) =
      some (floorTime .every_minute ⟨2024, 7, 15, 12, 34, 56⟩) :=
  c1_name_round_trip .every_minute ['f', 'u', 'l', 'l'] ⟨2024, 7, 15, 12, 34, 56⟩
    (Or.inl rfl) (by decide) (by decide) (by decide) (by decide) (by decide)
    (by decide) (by decide) (by decide) (by decide)

/-- Claim C1, counterexample to the claim as stated: for `every_month` the
canonical name zeroes the day field, `strptime('%Y_%m_%d_%H_%M')` rejects a
zero day, and `collection_name2time` therefore fails (raises) instead of
returning the floored time. -/
theorem c1_month_not_parsable :
    collection_name2time
        (convert_timestamp2name .every_month ['f', 'u', 'l', 'l'] ⟨2024, 1, 1, 0, 0, 0⟩) =
      none ∧
    some (floorTime .every_month ⟨2024, 1, 1, 0, 0, 0⟩) ≠
      (none : Option DT) := by
  constructor
  · decide
  · decide

/- ## Documents and events -/

/-- A trade record from the REST trades endpoint; only `trade_id` is read by
the core. -/
structure Trade where
  trade_id : Int
deriving DecidableEq, Repr

/-- A decoded document, as handed to the handler or to the rotator.  Each
field is optional, mirroring a Python dict that may or may not carry the
key; all other payload is opaque and irrelevant to the control flow. -/
structure Doc where
  product_id : Option String := none
  sequence : Option Int := none
  type : Option String := none
  trade_id : Option Int := none
  time : Option Int := none
  trades : Option (List Trade) := none
deriving DecidableEq, Repr

/- ## Bucket rotator writer (DatabaseCollection.insert) -/

/-- The fields of `DatabaseCollection` read or written by `insert`.  Buckets
are modelled as the list of documents inserted into them, in order. -/
structure RotState where
  is_start_time : Bool
  start_time : Int
  stop_collection : Bool
  stop_time : Int
  collection_stopped : Bool
  fill_next_collection : Bool
  backup_time : Int
  fill_end_time : Int
  collection : List Doc
  temp_next_collection : Option (List Doc)
deriving DecidableEq, Repr

/-- `DatabaseCollection.insert` from
`src/data_collector/database_collection.py`.  `now` is `datetime.utcnow()`,
used as the timestamp whenever the document has no `time` field
(`val.get('time', datetime.utcnow().isoformat())`).  The result is `none`
when the overlap branch dereferences an absent `_temp_next_collection`
(an `AttributeError` in Python). -/
def DatabaseCollection.insert (now : Int) (st : RotState) (val : Doc) : Option RotState :=
  if st.is_start_time then
    let timestamp := val.time.getD now
    if timestamp ≥ st.start_time then
      some { st with collection := st.collection ++ [val], is_start_time := false }
    else some st
  else if st.stop_collection then
    let timestamp := val.time.getD now
    if timestamp < st.stop_time then
      some { st with collection := st.collection ++ [val] }
    else if timestamp > st.stop_time then
      some { st with collection_stopped := true }
    else some st
  else if st.fill_next_collection then
    let timestamp := val.time.getD now
    if timestamp < st.backup_time then
      some { st with collection := st.collection ++ [val] }
    else
      match st.temp_next_collection with
      | none => none
      | some nxt =>
        if timestamp > st.fill_end_time then
          some { st with
            collection := nxt ++ [val]
            fill_next_collection := false
            temp_next_collection := none }
        else
          some { st with temp_next_collection := some (nxt ++ [val]) }
  else some { st with collection := st.collection ++ [val] }

/- ## Stream event handler (WebsocketDataCollectionEvent) -/

/-- Python-dict lookup on an association list (`d[k]` yields `KeyError`,
i.e. `none` here, when the key is absent). -/
def dlookup {α : Type} : List (String × α) → String → Option α
  | [], _ => none
  | (k, v) :: rest, key => if k = key then some v else dlookup rest key

/-- Python-dict assignment `d[k] = v`: replace in place, or append a new
binding. -/
def dset {α : Type} : List (String × α) → String → α → List (String × α)
  | [], key, v => [(key, v)]
  | (k, w) :: rest, key, v =>
    if k = key then (k, v) :: rest else (k, w) :: dset rest key v

/-- The handler state: `_sequence` (with `-1` as the "no event yet" marker),
`last_match_trade_id` (with `None` values), `product_ids`, `is_seq_gap` and
the ingress counter.  `resetLog` is instrumentation: it records each call to
`reset_book`, so that "no reset happened" is expressible. -/
structure WSState where
  sequence : List (String × Int)
  last_match_trade_id : List (String × Option Int)
  product_ids : List String
  is_seq_gap : Bool
  packet_rate_count : Int
  resetLog : List String
deriving DecidableEq, Repr

/-- Environment for the REST calls made during gap repair: the `sequence`
field of the order-book snapshot and the (newest-first) trades list. -/
structure WSEnv where
  obSeq : String → Int
  tradesOf : String → List Trade

/-- The order-book snapshot document forwarded by `reset_book`: the response
decorated with `time := now` and `product_id`, carrying the response's
`sequence`. -/
def snapshotDoc (env : WSEnv) (now : Int) (p : String) : Doc :=
  { product_id := some p, sequence := some (env.obSeq p), time := some now }

/-- `reset_book` from `custom_websocket_events.py`: forward the decorated
snapshot and set `_sequence[p]` to the response's sequence. -/
def reset_book (env : WSEnv) (now : Int) (st : WSState) (p : String) : WSState × List Doc :=
  ({ st with sequence := dset st.sequence p (env.obSeq p), resetLog := st.resetLog ++ [p] },
   [snapshotDoc env now p])

/-- The gap back-fill entry `{'product_id': p, 'trades': ts}` built by
`get_missing_trades`; note that it carries no `time` field. -/
def gapTradesEntry (p : String) (ts : List Trade) : Doc :=
  { product_id := some p, trades := some ts }

/-- `get_missing_trades` from `custom_websocket_events.py`: keep the prefix
of the newest-first trades whose `trade_id` exceeds `last_match_trade_id[p]`
and forward them as a single entry.  `Except.error` models the `KeyError`
raised when `p` is not a key of `last_match_trade_id`. -/
def get_missing_trades (env : WSEnv) (st : WSState) (p : String) :
    Except Unit (WSState × List Doc) :=
  match dlookup st.last_match_trade_id p with
  | none => .error ()
  | some none => .ok (st, [])
  | some (some lmt) =>
    let kept := (env.tradesOf p).takeWhile (fun tr => tr.trade_id > lmt)
    match kept with
    | [] => .ok (st, [])
    | t0 :: _ =>
      .ok ({ st with last_match_trade_id := dset st.last_match_trade_id p (some t0.trade_id) },
        [gapTradesEntry p kept])

/-- `on_sequence_gap`: reset the book, back-fill trades and zero the packet
counter. -/
def on_sequence_gap (env : WSEnv) (now : Int) (st : WSState) (p : String) :
    Except Unit (WSState × List Doc) :=
  let (st1, out1) := reset_book env now st p
  match get_missing_trades env st1 p with
  | .error e => .error e
  | .ok (st2, out2) => .ok ({ st2 with packet_rate_count := 0 }, out1 ++ out2)

/-- The tail of the `match`-event path (line 187 on): record the trade id,
forward the event, record its sequence.  `value['trade_id']` raises when the
field is absent. -/
def forwardMatch (st : WSState) (p : String) (seq : Int) (v : Doc) :
    Except Unit (WSState × List Doc) :=
  match v.trade_id with
  | none => .error ()
  | some tid =>
    .ok ({ st with
      last_match_trade_id := dset st.last_match_trade_id p (some tid)
      sequence := dset st.sequence p seq }, [v])

/-- The tail of the non-`match` path: forward the event and record its
sequence. -/
def forwardPlain (st : WSState) (p : String) (seq : Int) (v : Doc) : WSState × List Doc :=
  ({ st with sequence := dset st.sequence p seq }, [v])

/-- `on_response` from `custom_websocket_events.py`.  `Except.error` models
an uncaught `KeyError` (unknown `product_id` in `_sequence`, absent `type`
or `trade_id` field, or absent key in `last_match_trade_id`). -/
def on_response (env : WSEnv) (now : Int) (st : WSState) (v : Doc) :
    Except Unit (WSState × List Doc) :=
  let seq := v.sequence.getD (-1)
  let st := { st with packet_rate_count := st.packet_rate_count + 1 }
  match v.product_id with
  | none => .ok (st, [])
  | some p =>
    match dlookup st.sequence p with
    | none => .error ()
    | some last =>
      if last = -1 then
        .ok (reset_book env now st p)
      else if seq < last then .ok (st, [])
      else if seq > last + 1 then
        match on_sequence_gap env now st p with
        | .error e => .error e
        | .ok (st2, out) => .ok ({ st2 with is_seq_gap := true }, out)
      else
        match v.type with
        | none => .error ()
        | some ty =>
          if ty = "match" then
            if st.is_seq_gap then
              let st1 := { st with is_seq_gap := false }
              match dlookup st1.last_match_trade_id p with
              | none => .error ()
              | some none => forwardMatch st1 p seq v
              | some (some lmt) =>
                match v.trade_id with
                | none => .error ()
                | some tid =>
                  if tid ≤ lmt then .ok (st1, [])
                  else forwardMatch st1 p seq v
            else forwardMatch st p seq v
          else .ok (forwardPlain st p seq v)

/-- Run `on_response` over a list of inbound events, accumulating the
forwarded documents in order; an uncaught exception aborts the trace. -/
def processTrace (env : WSEnv) (now : Int) :
    WSState → List Doc → Except Unit (WSState × List Doc)
  | st, [] => .ok (st, [])
  | st, v :: vs =>
    match on_response env now st v with
    | .error e => .error e
    | .ok (st1, out1) =>
      match processTrace env now st1 vs with
      | .error e => .error e
      | .ok (st2, out2) => .ok (st2, out1 ++ out2)

/-- Arguments of the control-plane `update` call; absent keys are `none`
(the Python code uses `-1` as the absence default of `dict.get`). -/
structure UpdateArgs where
  stop_program : Option Int := none
  stop_time : Option Int := none
  new_product_ids : Option (List String) := none
  old_product_ids : Option (List String) := none

/-- `update` from `custom_websocket_events.py`.  The second component is the
`stop_time` forwarded to the collection manager on the stop branch (the
rotator state is outside `WSState`). -/
def update (st : WSState) (args : UpdateArgs) : WSState × Option Int :=
  let is_stop_program : Bool := match args.stop_program with
    | some x => x != -1
    | none => false
  if is_stop_program then
    (st, some (args.stop_time.getD (-1)))
  else
    match args.new_product_ids with
    | some new_ids =>
      (new_ids.foldl (fun s p =>
        { s with product_ids := s.product_ids ++ [p], sequence := dset s.sequence p (-1) }) st,
       none)
    | none =>
      match args.old_product_ids with
      | some old_ids =>
        (old_ids.foldl (fun s p =>
          if p ∈ s.product_ids then { s with product_ids := s.product_ids.erase p } else s) st,
         none)
      | none => (st, none)

/- ## Backup pipeline (DatabaseCollection.backup_collection) -/

/-- One row `{col_name, time}` of the `backup_info` state table. -/
structure BRecord where
  col_name : String
  time : Int
deriving DecidableEq, Repr

/-- `backup_type` configuration. -/
inductive BackupType where
  | aws
  | local
deriving DecidableEq, Repr

/-- Failure injection for the per-candidate steps: which step (export,
compress, ship, drop) raises for which bucket name. -/
structure BEnv where
  exportFails : String → Bool
  compressFails : String → Bool
  shipFails : String → Bool
  dropFails : String → Bool

/-- State threaded through the backup pipeline.  `storage` is the set of
bucket names present in the database; `backup_state_table` is the
`backup_info` table; `backed_up_info` is the Python local list of the same
name, accumulated across candidates within one `backup_collection` call.
`exports`, `compresses`, `uploads` and `drops` log the successful completion
of each step; `aborted` records a re-raised exception (non-production
mode). -/
structure BState where
  storage : List String
  backup_state_table : List BRecord
  backed_up_info : List BRecord
  exports : List String
  compresses : List String
  uploads : List String
  drops : List String
  aborted : Bool
deriving DecidableEq, Repr

/-- The `except` clause of the per-candidate loop: log, wipe the temp
folder, and continue — unless `is_production` is false, in which case the
exception is re-raised and the loop aborts. -/
def exceptPath (is_production : Bool) (st : BState) : BState :=
  if is_production then st else { st with aborted := true }

/-- One iteration of the candidate loop of `backup_collection`
(non-overwrite path): skip the candidate if it is already recorded in
`backup_info`; otherwise export, compress, ship (appending to
`backed_up_info` only in `local` mode — the `aws` branch does not append),
drop the bucket, and `insert_multiple(backed_up_info)` into the state
table. -/
def processCandidate (bt : BackupType) (is_production : Bool) (now : Int) (env : BEnv)
    (st : BState) (c : String) : BState :=
  if st.aborted then st
  else if st.backup_state_table.any (fun r => r.col_name = c) then st
  else if env.exportFails c then exceptPath is_production st
  else
    let st1 := { st with exports := st.exports ++ [c] }
    if env.compressFails c then exceptPath is_production st1
    else
      let st2 := { st1 with compresses := st1.compresses ++ [c] }
      if env.shipFails c then exceptPath is_production st2
      else
        let st3 := { st2 with
          uploads := st2.uploads ++ [c]
          backed_up_info :=
            if bt = .local then st2.backed_up_info ++ [⟨c, now⟩] else st2.backed_up_info }
        if env.dropFails c then exceptPath is_production st3
        else
          { st3 with
            storage := st3.storage.erase c
            drops := st3.drops ++ [c]
            backup_state_table := st3.backup_state_table ++ st3.backed_up_info }

/-- `DatabaseCollection.backup_collection` on a list of candidates: the
Python local `backed_up_info` starts empty, and a fresh call is not in the
aborted state. -/
def backup_collection (bt : BackupType) (is_production : Bool) (now : Int) (env : BEnv)
    (st : BState) (cands : List String) : BState :=
  cands.foldl (processCandidate bt is_production now env)
    { st with backed_up_info := [], aborted := false }

/-- A sequence of backup cycles over the lifetime of the process, each with
its own failure injection and candidate list. -/
def runCycles (bt : BackupType) (is_production : Bool) (now : Int) :
    BState → List (BEnv × List String) → BState
  | st, [] => st
  | st, (env, cands) :: rest =>
    runCycles bt is_production now (backup_collection bt is_production now env st cands) rest

/-- Well-formed cycles: each cycle's candidates are distinct names drawn
from the storage as it stands at that cycle (as `backup_all_collection`'s
listing produces them), and the drop step never raises. -/
def cyclesOK (bt : BackupType) (is_production : Bool) (now : Int) :
    BState → List (BEnv × List String) → Prop
  | _, [] => True
  | st, (env, cands) :: rest =>
    cands.Nodup ∧ (∀ c ∈ cands, c ∈ st.storage) ∧ (∀ c, env.dropFails c = false) ∧
      cyclesOK bt is_production now (backup_collection bt is_production now env st cands) rest

/- ## Supervisor back-off and signal routing -/

/-- One `except RestartWebSocketException` iteration of the supervisor's
connection loop in `trade_data_collector.py`: given the current `delay` and
the seconds since the last attempt, return the new delay and the sleep that
was performed (if any). -/
def backoff_step (delay : Nat) (time_diff : Int) : Nat × Option Nat :=
  if time_diff < 10 then (min (delay * 2) 60, some delay) else (delay, none)

/-- A Python value as compared by `in` inside `trap_signals`: either the
`signal` module object itself or a string. -/
inductive PyVal where
  | moduleRef
  | pystr (s : String)
deriving DecidableEq, Repr

/-- Which of the two handlers `trap_signals` installs. -/
inductive SigHandler where
  | normal
  | crash
deriving DecidableEq, Repr

/-- The `user_catchable` list of `trap_signals` in `src/common/util.py`: a
list of signal-name strings. -/
def user_catchable : List PyVal :=
  [.pystr "SIGINT", .pystr "SIGTERM", .pystr "SIGQUIT"]

/-- The handler `trap_signals` installs for a catchable signal named
`signame`: the source tests `if signal in user_catchable` — comparing the
`signal` module object, not the name `i` being iterated, against the
strings. -/
def trap_signals_route (_signame : String) : SigHandler :=
  if PyVal.moduleRef ∈ user_catchable then .normal else .crash

/-- Exit codes of the two handlers in `trade_data_collector.py`:
`on_normal_exit` calls `os._exit(0)`, `on_crash_signal_handler` calls
`os._exit(1)`. -/
def handler_exit_code : SigHandler → Nat
  | .normal => 0
  | .crash => 1

/- ## Claim C2: overlap-window insert -/

/-- Claim C2: while the next bucket is open (overlap window, not the
start-time or stop branches), an event with time `t` is written to the
current bucket when `t < boundary_time` and to the next bucket otherwise;
an event with `t > fill_end` is written into the next bucket and
simultaneously performs the swap (`current := next`, `next := ⊥`, overlap
flag cleared). -/
theorem c2_overlap_insert (now : Int) (st : RotState) (v : Doc) (t : Int) (nxt : List Doc)
    (h1 : st.is_start_time = false) (h2 : st.stop_collection = false)
    (h3 : st.fill_next_collection = true) (h4 : st.temp_next_collection = some nxt)
    (h5 : v.time = some t) (h6 : st.backup_time ≤ st.fill_end_time) :
    (t < st.backup_time →
      DatabaseCollection.insert now st v =
        some { st with collection := st.collection ++ [v] }) ∧
    (st.backup_time ≤ t → t ≤ st.fill_end_time →
      DatabaseCollection.insert now st v =
        some { st with temp_next_collection := some (nxt ++ [v]) }) ∧
    (st.fill_end_time < t →
      DatabaseCollection.insert now st v =
        some { st with
          collection := nxt ++ [v]
          fill_next_collection := false
          temp_next_collection := none }) := by
  refine ⟨fun hlt => ?_, fun hge hle => ?_, fun hgt => ?_⟩ <;>
    rw [DatabaseCollection.insert] <;>
    simp only [h1, h2, h3, h4, h5, Option.getD_some, Bool.false_eq_true, if_false, if_true]
  · rw [if_pos hlt]
  · rw [if_neg (by omega), if_neg (by omega)]
  · rw [if_neg (by omega), if_pos hgt]

/-- Claim C2, witness: the scenario of the spec's boundary-crossing test —
`boundary_time = 100`, `fill_end = 115`, an event at `t = 120` swaps and
lands in the new bucket. -/
theorem c2_overlap_insert_witness :
    DatabaseCollection.insert 0
        ⟨false, 0, false, 0, false, true, 100, 115, [], some []⟩ { time := some 120 } =
      some ⟨false, 0, false, 0, false, false, 100, 115, [{ time := some 120 }], none⟩ := by
  have h := (c2_overlap_insert 0 ⟨false, 0, false, 0, false, true, 100, 115, [], some []⟩
    { time := some 120 } 120 [] rfl rfl rfl rfl rfl (by decide)).2.2 (by decide)
  rw [h]
  rfl

/- ## Claim C10: documents without a time field -/

/-- Claim C10: a document with no `time` field — such as the gap back-fill
entry `{product_id, trades}`, which carries none — is evaluated by every
branch of the rotator's `insert` as if its timestamp were the wall-clock
instant `now` of the insertion: acceptance in the start branch, discarding
or stopping in the stop branch, and bucket choice plus swap in the overlap
branch are all decided by `now`. -/
theorem c10_timeless_doc (now : Int) (st : RotState) (v : Doc) (nxt : List Doc)
    (hv : v.time = none) :
    (∀ p ts, (gapTradesEntry p ts).time = none) ∧
    (st.is_start_time = true →
      DatabaseCollection.insert now st v =
        (if now ≥ st.start_time then
          some { st with collection := st.collection ++ [v], is_start_time := false }
        else some st)) ∧
    (st.is_start_time = false → st.stop_collection = true →
      DatabaseCollection.insert now st v =
        (if now < st.stop_time then some { st with collection := st.collection ++ [v] }
         else if now > st.stop_time then some { st with collection_stopped := true }
         else some st)) ∧
    (st.is_start_time = false → st.stop_collection = false →
      st.fill_next_collection = true → st.temp_next_collection = some nxt →
      DatabaseCollection.insert now st v =
        (if now < st.backup_time then some { st with collection := st.collection ++ [v] }
         else if now > st.fill_end_time then
           some { st with
             collection := nxt ++ [v]
             fill_next_collection := false
             temp_next_collection := none }
         else some { st with temp_next_collection := some (nxt ++ [v]) })) := by
  refine ⟨fun p ts => rfl, ?_, ?_, ?_⟩
  · intro hstart
    simp [DatabaseCollection.insert, hstart, hv]
  · intro hstart hstop
    simp [DatabaseCollection.insert, hstart, hstop, hv]
  · intro hstart hstop hfill htemp
    simp [DatabaseCollection.insert, hstart, hstop, hfill, htemp, hv]

/-- Claim C10, witness: the gap back-fill entry itself, inserted in the
overlap state with wall-clock `now = 120` past `fill_end = 115`, is
bucketed by arrival time: it lands in the new bucket and performs the
swap, although it carries no `time` field. -/
theorem c10_timeless_doc_witness :
    DatabaseCollection.insert 120
        ⟨false, 0, false, 0, false, true, 100, 115, [], some []⟩
        (gapTradesEntry "BTC-USD" [⟨45⟩]) =
      some ⟨false, 0, false, 0, false, false, 100, 115, [gapTradesEntry "BTC-USD" [⟨45⟩]],
        none⟩ := by
  have h := (c10_timeless_doc 120 ⟨false, 0, false, 0, false, true, 100, 115, [], some []⟩
    (gapTradesEntry "BTC-USD" [⟨45⟩]) [] rfl).2.2.2 rfl rfl rfl rfl
  rw [h]
  decide

/- ## Claim C7: signal routing -/

/-- Claim C7 (code bug): the source's `if signal in user_catchable` compares
the `signal` module object against the name strings, which is always false;
so SIGINT, SIGTERM and SIGQUIT — like every other catchable signal — are
routed to the crash handler (exit code 1) instead of the normal-exit
handler (exit code 0) that the surrounding code and the spec intend. -/
theorem c7_signals_routed_to_crash :
    trap_signals_route "SIGINT" = SigHandler.crash ∧
    trap_signals_route "SIGTERM" = SigHandler.crash ∧
    trap_signals_route "SIGQUIT" = SigHandler.crash ∧
    trap_signals_route "SIGHUP" = SigHandler.crash ∧
    handler_exit_code SigHandler.crash = 1 ∧
    handler_exit_code SigHandler.normal = 0 := by
  refine ⟨?_, ?_, ?_, ?_, rfl, rfl⟩ <;> decide

/- ## Claim C9: reconnect back-off -/

/-- Claim C9 (amended): on a restart exception, if fewer than 10 seconds
have passed since the last attempt the loop sleeps `delay` seconds and sets
`delay := min(60, delay × 2)`; otherwise it does not sleep and leaves
`delay` unchanged (there is no reset to 1 in the source). -/
theorem c9_backoff (delay : Nat) (td : Int) :
    (td < 10 → backoff_step delay td = (min (delay * 2) 60, some delay)) ∧
    (10 ≤ td → backoff_step delay td = (delay, none)) := by
  constructor
  · intro h
    rw [backoff_step, if_pos h, Nat.min_comm]
  · intro h
    rw [backoff_step, if_neg (by omega)]

/-- Claim C9, witness for the amended behaviour at concrete inputs. -/
theorem c9_backoff_witness :
    backoff_step 4 5 = (min (4 * 2) 60, some 4) ∧ backoff_step 4 12 = (4, none) :=
  ⟨(c9_backoff 4 5).1 (by decide), (c9_backoff 4 12).2 (by decide)⟩

/-- Claim C9, counterexample to the claim as stated: with `delay = 4` and 10
seconds elapsed, the code leaves the delay at 4 and performs no sleep,
whereas the claim requires `delay := 1`. -/
theorem c9_no_reset :
    backoff_step 4 10 = (4, none) ∧ (backoff_step 4 10).1 ≠ 1 := by
  constructor
  · decide
  · decide

/- ## Dictionary lemmas -/

theorem dlookup_dset_self {α : Type} (m : List (String × α)) (k : String) (v : α) :
    dlookup (dset m k v) k = some v := by
  induction m with
  | nil => simp [dset, dlookup]
  | cons kv rest ih =>
    obtain ⟨k', w⟩ := kv
    by_cases h : k' = k
    · subst h
      simp [dset, dlookup]
    · simp [dset, dlookup, h, ih]

theorem dlookup_dset_ne {α : Type} (m : List (String × α)) (k k' : String) (v : α)
    (h : k' ≠ k) : dlookup (dset m k v) k' = dlookup m k' := by
  induction m with
  | nil => simp [dset, dlookup, Ne.symm h]
  | cons kv rest ih =>
    obtain ⟨k0, w⟩ := kv
    by_cases h0 : k0 = k
    · subst h0
      simp [dset, dlookup, Ne.symm h]
    · by_cases h1 : k0 = k'
      · subst h1
        simp [dset, dlookup, h0]
      · simp [dset, dlookup, h0, h1, ih]

/- ## Claim C3: per-pair sequence behaviour of the forwarding order -/

/-- The effective sequence number the handler reads from an event:
`value.get('sequence', -1)`. -/
def eseq (v : Doc) : Int :=
  v.sequence.getD (-1)

/-- A list of forwarded documents whose effective sequences climb from
`last` in steps of 0 or 1 (the handler forwards an event exactly when its
sequence is `last` or `last + 1`). -/
def seqChainFrom : Int → List Doc → Prop
  | _, [] => True
  | last, v :: rest => (eseq v = last ∨ eseq v = last + 1) ∧ seqChainFrom (eseq v) rest

theorem gmt_resetLog (env : WSEnv) (s : WSState) (p : String) (s2 : WSState) (o : List Doc)
    (h : get_missing_trades env s p = .ok (s2, o)) : s2.resetLog = s.resetLog := by
  cases hlm : dlookup s.last_match_trade_id p with
  | none =>
    simp only [get_missing_trades, hlm] at h
    cases h
  | some lmtOpt =>
    cases lmtOpt with
    | none =>
      simp only [get_missing_trades, hlm] at h
      obtain ⟨rfl, rfl⟩ : s = s2 ∧ ([] : List Doc) = o := by simpa using h
      rfl
    | some lmt =>
      simp only [get_missing_trades, hlm] at h
      cases hk : (env.tradesOf p).takeWhile (fun tr => decide (tr.trade_id > lmt)) with
      | nil =>
        rw [hk] at h
        obtain ⟨rfl, rfl⟩ : s = s2 ∧ ([] : List Doc) = o := by simpa using h
        rfl
      | cons t0 ts =>
        rw [hk] at h
        obtain ⟨rfl, rfl⟩ :
            ({ s with last_match_trade_id := dset s.last_match_trade_id p (some t0.trade_id) }
              = s2) ∧ [gapTradesEntry p (t0 :: ts)] = o := by simpa using h
        rfl

theorem osg_resetLog (env : WSEnv) (now : Int) (s : WSState) (p : String) (st2 : WSState)
    (o2 : List Doc) (h : on_sequence_gap env now s p = .ok (st2, o2)) :
    st2.resetLog = s.resetLog ++ [p] := by
  simp only [on_sequence_gap, reset_book] at h
  cases hg : get_missing_trades env
      { s with sequence := dset s.sequence p (env.obSeq p), resetLog := s.resetLog ++ [p] } p with
  | error e =>
    rw [hg] at h
    cases h
  | ok pr =>
    obtain ⟨s2, o⟩ := pr
    rw [hg] at h
    obtain ⟨rfl, rfl⟩ : ({ s2 with packet_rate_count := 0 } = st2) ∧
        [snapshotDoc env now p] ++ o = o2 := by simpa using h
    have hr := gmt_resetLog env _ p s2 o hg
    simpa using hr

theorem fwdMatch_cases (stX : WSState) (p' : String) (sq : Int) (v : Doc) (st1 : WSState)
    (out : List Doc) (h : forwardMatch stX p' sq v = .ok (st1, out)) :
    ∃ tid, v.trade_id = some tid ∧
      st1 = { stX with
        last_match_trade_id := dset stX.last_match_trade_id p' (some tid)
        sequence := dset stX.sequence p' sq } ∧ out = [v] := by
  cases htid : v.trade_id with
  | none =>
    simp only [forwardMatch, htid] at h
    cases h
  | some tid =>
    simp only [forwardMatch, htid] at h
    obtain ⟨rfl, rfl⟩ : ({ stX with
        last_match_trade_id := dset stX.last_match_trade_id p' (some tid)
        sequence := dset stX.sequence p' sq } = st1) ∧ [v] = out := by simpa using h
    exact ⟨tid, rfl, rfl, rfl⟩

theorem forwarded_case (st st1 : WSState) (v : Doc) (p' : String) (sq last' : Int)
    (hpid : v.product_id = some p') (hseq : v.sequence.getD (-1) = sq)
    (hlk : dlookup st.sequence p' = some last')
    (hS : st1.sequence = dset st.sequence p' sq)
    (hok : sq = last' ∨ sq = last' + 1) :
    ∀ p last, dlookup st.sequence p = some last →
      ([v].filter (fun w => decide (w.product_id = some p)) = [] ∧
        dlookup st1.sequence p = some last) ∨
      (∃ w, [v].filter (fun w => decide (w.product_id = some p)) = [w] ∧
        (eseq w = last ∨ eseq w = last + 1) ∧ dlookup st1.sequence p = some (eseq w)) := by
  intro p last hl
  by_cases hpp : p = p'
  · subst hpp
    have hll : last = last' := by
      rw [hl] at hlk
      exact Option.some.inj hlk
    right
    refine ⟨v, by simp [hpid], ?_, ?_⟩
    · rw [eseq, hseq, hll]
      exact hok
    · rw [hS, dlookup_dset_self, eseq, hseq]
  · left
    refine ⟨by simp [hpid, Ne.symm hpp], ?_⟩
    rw [hS, dlookup_dset_ne _ _ _ _ hpp, hl]

theorem onresp_cases (env : WSEnv) (now : Int) (st : WSState) (v : Doc) (st1 : WSState)
    (out : List Doc) (h : on_response env now st v = .ok (st1, out)) :
    (∃ l, l ≠ [] ∧ st1.resetLog = st.resetLog ++ l) ∨
    (st1.resetLog = st.resetLog ∧
      ∀ p last, dlookup st.sequence p = some last →
        (out.filter (fun w => decide (w.product_id = some p)) = [] ∧
          dlookup st1.sequence p = some last) ∨
        (∃ w, out.filter (fun w => decide (w.product_id = some p)) = [w] ∧
          (eseq w = last ∨ eseq w = last + 1) ∧
          dlookup st1.sequence p = some (eseq w))) := by
  cases hpid : v.product_id with
  | none =>
    simp only [on_response, hpid] at h
    obtain ⟨rfl, rfl⟩ : ({ st with packet_rate_count := st.packet_rate_count + 1 } = st1 ∧
        ([] : List Doc) = out) := by
      simpa using h
    right
    exact ⟨rfl, fun p last hl => Or.inl ⟨rfl, hl⟩⟩
  | some p' =>
    simp only [on_response, hpid] at h
    cases hlk : dlookup st.sequence p' with
    | none =>
      rw [show ({ st with packet_rate_count := st.packet_rate_count + 1 } : WSState).sequence
        = st.sequence from rfl] at h
      rw [hlk] at h
      cases h
    | some last' =>
      rw [show ({ st with packet_rate_count := st.packet_rate_count + 1 } : WSState).sequence
        = st.sequence from rfl] at h
      simp only [hlk] at h
      by_cases hneg : last' = -1
      · rw [if_pos hneg] at h
        simp only [reset_book] at h
        obtain ⟨rfl, rfl⟩ : ({ st with
            sequence := dset st.sequence p' (env.obSeq p')
            packet_rate_count := st.packet_rate_count + 1
            resetLog := st.resetLog ++ [p'] } = st1) ∧ [snapshotDoc env now p'] = out := by
          simpa using h
        exact Or.inl ⟨[p'], by simp, rfl⟩
      · rw [if_neg hneg] at h
        by_cases hlt : v.sequence.getD (-1) < last'
        · rw [if_pos hlt] at h
          obtain ⟨rfl, rfl⟩ : ({ st with packet_rate_count := st.packet_rate_count + 1 } = st1 ∧
              ([] : List Doc) = out) := by
            simpa using h
          right
          exact ⟨rfl, fun p last hl => Or.inl ⟨rfl, hl⟩⟩
        · rw [if_neg hlt] at h
          by_cases hgt : v.sequence.getD (-1) > last' + 1
          · rw [if_pos hgt] at h
            cases hsg : on_sequence_gap env now
                { st with packet_rate_count := st.packet_rate_count + 1 } p' with
            | error e =>
              rw [hsg] at h
              cases h
            | ok pr =>
              obtain ⟨st2, out2⟩ := pr
              rw [hsg] at h
              obtain ⟨rfl, rfl⟩ : ({ st2 with is_seq_gap := true } = st1) ∧ out2 = out := by
                simpa using h
              refine Or.inl ⟨[p'], by simp, ?_⟩
              have hr := osg_resetLog env now _ p' st2 out2 hsg
              simpa using hr
          · rw [if_neg hgt] at h
            cases hty : v.type with
            | none =>
              simp only [hty] at h
              cases h
            | some ty =>
              simp only [hty] at h
              have hseqok : v.sequence.getD (-1) = last' ∨
                  v.sequence.getD (-1) = last' + 1 := by omega
              by_cases hmatch : ty = "match"
              · rw [if_pos hmatch] at h
                by_cases hgap : st.is_seq_gap
                · rw [show ({ st with packet_rate_count := st.packet_rate_count + 1 }
                      : WSState).is_seq_gap = st.is_seq_gap from rfl, hgap] at h
                  simp only [if_true] at h
                  cases hlm : dlookup st.last_match_trade_id p' with
                  | none =>
                    rw [show ∀ s : WSState, ∀ b,
                        ({ s with is_seq_gap := b } : WSState).last_match_trade_id
                          = s.last_match_trade_id from fun _ _ => rfl] at h
                    simp only [hlm] at h
                    cases h
                  | some lmtOpt =>
                    simp only [hlm] at h
                    cases lmtOpt with
                    | none =>
                      obtain ⟨tid, htid, rfl, rfl⟩ := fwdMatch_cases _ _ _ _ _ _ h
                      right
                      refine ⟨rfl, forwarded_case st _ v p' _ last' hpid rfl hlk rfl hseqok⟩
                    | some lmt =>
                      cases htid : v.trade_id with
                      | none =>
                        simp only [htid] at h
                        cases h
                      | some tid =>
                        simp only [htid] at h
                        by_cases hle : tid ≤ lmt
                        · rw [if_pos hle] at h
                          obtain ⟨rfl, rfl⟩ : ({ st with
                              packet_rate_count := st.packet_rate_count + 1
                              is_seq_gap := false } = st1 ∧ ([] : List Doc) = out) := by
                            simpa using h
                          right
                          exact ⟨rfl, fun p last hl => Or.inl ⟨rfl, hl⟩⟩
                        · rw [if_neg hle] at h
                          obtain ⟨tid2, htid2, rfl, rfl⟩ := fwdMatch_cases _ _ _ _ _ _ h
                          right
                          refine ⟨rfl, forwarded_case st _ v p' _ last' hpid rfl hlk rfl hseqok⟩
                · rw [show ({ st with packet_rate_count := st.packet_rate_count + 1 }
                      : WSState).is_seq_gap = st.is_seq_gap from rfl] at h
                  simp only [hgap, if_false, Bool.false_eq_true] at h
                  obtain ⟨tid, htid, rfl, rfl⟩ := fwdMatch_cases _ _ _ _ _ _ h
                  right
                  refine ⟨rfl, forwarded_case st _ v p' _ last' hpid rfl hlk rfl hseqok⟩
              · rw [if_neg hmatch] at h
                simp only [forwardPlain] at h
                obtain ⟨rfl, rfl⟩ : ({ st with
                    packet_rate_count := st.packet_rate_count + 1
                    sequence := dset st.sequence p' (v.sequence.getD (-1)) } = st1 ∧
                    [v] = out) := by
                  simpa using h
                right
                refine ⟨rfl, forwarded_case st _ v p' _ last' hpid rfl hlk rfl hseqok⟩

theorem trace_resetLog (env : WSEnv) (now : Int) :
    ∀ (events : List Doc) (st st' : WSState) (fwd : List Doc),
    processTrace env now st events = .ok (st', fwd) →
    ∃ l, st'.resetLog = st.resetLog ++ l := by
  intro events
  induction events with
  | nil =>
    intro st st' fwd h
    obtain ⟨rfl, rfl⟩ : st = st' ∧ ([] : List Doc) = fwd := by
      simpa [processTrace] using h
    exact ⟨[], by simp⟩
  | cons v vs ih =>
    intro st st' fwd h
    simp only [processTrace] at h
    cases h1 : on_response env now st v with
    | error e =>
      rw [h1] at h
      cases h
    | ok pr =>
      obtain ⟨st1, out1⟩ := pr
      simp only [h1] at h
      cases h2 : processTrace env now st1 vs with
      | error e =>
        rw [h2] at h
        cases h
      | ok pr2 =>
        obtain ⟨st2, out2⟩ := pr2
        rw [h2] at h
        obtain ⟨rfl, rfl⟩ : st2 = st' ∧ out1 ++ out2 = fwd := by simpa using h
        obtain ⟨l2, hl2⟩ := ih st1 st2 out2 h2
        rcases onresp_cases env now st v st1 out1 h1 with ⟨l1, _, hg⟩ | ⟨heq, _⟩
        · exact ⟨l1 ++ l2, by rw [hl2, hg, List.append_assoc]⟩
        · exact ⟨l2, by rw [hl2, heq]⟩

theorem c3_aux (env : WSEnv) (now : Int) :
    ∀ (events : List Doc) (st st' : WSState) (fwd : List Doc),
    processTrace env now st events = .ok (st', fwd) →
    st'.resetLog = st.resetLog →
    ∀ p last, dlookup st.sequence p = some last →
      seqChainFrom last (fwd.filter (fun w => decide (w.product_id = some p))) := by
  intro events
  induction events with
  | nil =>
    intro st st' fwd h hres p last hl
    obtain ⟨rfl, rfl⟩ : st = st' ∧ ([] : List Doc) = fwd := by
      simpa [processTrace] using h
    simp [seqChainFrom]
  | cons v vs ih =>
    intro st st' fwd h hres p last hl
    simp only [processTrace] at h
    cases h1 : on_response env now st v with
    | error e =>
      rw [h1] at h
      cases h
    | ok pr =>
      obtain ⟨st1, out1⟩ := pr
      simp only [h1] at h
      cases h2 : processTrace env now st1 vs with
      | error e =>
        rw [h2] at h
        cases h
      | ok pr2 =>
        obtain ⟨st2, out2⟩ := pr2
        rw [h2] at h
        obtain ⟨rfl, rfl⟩ : st2 = st' ∧ out1 ++ out2 = fwd := by simpa using h
        rcases onresp_cases env now st v st1 out1 h1 with ⟨l1, hne, hg⟩ | ⟨heq, hstep⟩
        · exfalso
          obtain ⟨l2, hl2⟩ := trace_resetLog env now vs st1 st2 out2 h2
          rw [hl2, hg, List.append_assoc] at hres
          have hlen : (st.resetLog ++ (l1 ++ l2)).length = st.resetLog.length := by rw [hres]
          simp at hlen
          exact hne (by simpa using hlen.1)
        · have hres1 : st2.resetLog = st1.resetLog := by rw [heq, hres]
          rcases hstep p last hl with ⟨hf0, hl1⟩ | ⟨w, hf1, hrel, hl1⟩
          · rw [List.filter_append, hf0, List.nil_append]
            exact ih st1 st2 out2 h2 hres1 p last hl1
          · rw [List.filter_append, hf1]
            exact ⟨hrel, ih st1 st2 out2 h2 hres1 p (eseq w) hl1⟩
theorem seqChainFrom_chain (l : List Doc) :
    ∀ last, seqChainFrom last l →
      List.Chain' (fun a b => eseq b = eseq a ∨ eseq b = eseq a + 1) l := by
  induction l with
  | nil => intro last _; exact List.chain'_nil
  | cons v t ih =>
    intro last hc
    obtain ⟨hrel, hrest⟩ := hc
    rw [List.chain'_cons']
    refine ⟨?_, ih (eseq v) hrest⟩
    intro b hb
    cases t with
    | nil => cases hb
    | cons b0 t' =>
      obtain rfl : b0 = b := by simpa using hb
      exact hrest.1

/-- Claim C3 (amended): in a trace in which no book reset occurred, the
events forwarded for a fixed `product_id` carry effective sequence numbers
that increase in steps of 0 or 1: the handler drops an event only when its
sequence is strictly below the last one, so an exact duplicate
(`sequence = last`) is forwarded again rather than silently dropped, and
consecutive forwarded events satisfy `e2.sequence ∈ {e1.sequence,
e1.sequence + 1}`. -/
theorem c3_forward_steps (env : WSEnv) (now : Int) (st st' : WSState)
    (events fwd : List Doc) (p : String) (last : Int)
    (hrun : processTrace env now st events = .ok (st', fwd))
    (hnoreset : st'.resetLog = st.resetLog)
    (hl : dlookup st.sequence p = some last) :
    List.Chain' (fun a b => eseq b = eseq a ∨ eseq b = eseq a + 1)
      (fwd.filter (fun w => decide (w.product_id = some p))) :=
  seqChainFrom_chain _ last (c3_aux env now events st st' fwd hrun hnoreset p last hl)

/-- Claim C3, witness for the amended chain property on a concrete trace in
which a duplicate of sequence 5 is forwarded twice. -/
theorem c3_forward_steps_witness :
    List.Chain' (fun a b => eseq b = eseq a ∨ eseq b = eseq a + 1)
      (List.filter (fun w => decide (w.product_id = some "B"))
        [({ product_id := some "B", sequence := some 5, type := some "t" } : Doc),
         { product_id := some "B", sequence := some 5, type := some "t" }]) :=
  c3_forward_steps ⟨fun _ => 0, fun _ => []⟩ 0
    ⟨[("B", 4)], [("B", none)], ["B"], false, 0, []⟩
    ⟨[("B", 5)], [("B", none)], ["B"], false, 2, []⟩
    [{ product_id := some "B", sequence := some 5, type := some "t" },
     { product_id := some "B", sequence := some 5, type := some "t" }]
    [{ product_id := some "B", sequence := some 5, type := some "t" },
     { product_id := some "B", sequence := some 5, type := some "t" }]
    "B" 4 (by rfl) rfl rfl

/-- Claim C3, counterexample to the claim as stated: from `last = 4`, two
events with sequence 5 are both forwarded (the duplicate is not dropped),
no reset occurs, and the second forwarded sequence equals — rather than
exceeds by one — the first. -/
theorem c3_duplicate_forwarded :
    processTrace ⟨fun _ => 0, fun _ => []⟩ 0
        ⟨[("B", 4)], [("B", none)], ["B"], false, 0, []⟩
        [{ product_id := some "B", sequence := some 5, type := some "t" },
         { product_id := some "B", sequence := some 5, type := some "t" }] =
      Except.ok (⟨[("B", 5)], [("B", none)], ["B"], false, 2, []⟩,
        [{ product_id := some "B", sequence := some 5, type := some "t" },
         { product_id := some "B", sequence := some 5, type := some "t" }]) ∧
    ¬((5 : Int) = 5 + 1) := by
  constructor
  · rfl
  · decide

theorem foldRemove_fields (l : List String) : ∀ s : WSState,
    ((l.foldl (fun s p =>
      if p ∈ s.product_ids then { s with product_ids := s.product_ids.erase p } else s) s).sequence
        = s.sequence) ∧
    ((l.foldl (fun s p =>
      if p ∈ s.product_ids then { s with product_ids := s.product_ids.erase p } else s)
        s).last_match_trade_id = s.last_match_trade_id) := by
  induction l with
  | nil => intro s; exact ⟨rfl, rfl⟩
  | cons p t ih =>
    intro s
    simp only [List.foldl_cons]
    by_cases hp : p ∈ s.product_ids
    · rw [if_pos hp]
      exact ih { s with product_ids := s.product_ids.erase p }
    · rw [if_neg hp]
      exact ih s

/-- Claim C6 (amended): an inbound event with no `product_id` field is
ignored without failing (only the ingress counter changes, nothing is
forwarded); but an event whose `product_id` is absent from the tracker
raises `KeyError` (`self._sequence[prod_id]`) instead of being ignored; and
removing a pair via the control plane's `update` only removes it from
`product_ids` — its `_sequence` and `last_match_trade_id` entries remain, so
its late events keep being processed normally. -/
theorem c6_unknown_and_removal (env : WSEnv) (now : Int) (st : WSState) (v : Doc)
    (p : String) (old_ids : List String) :
    (v.product_id = none →
      on_response env now st v =
        .ok ({ st with packet_rate_count := st.packet_rate_count + 1 }, [])) ∧
    (v.product_id = some p → dlookup st.sequence p = none →
      on_response env now st v = .error ()) ∧
    ((update st { old_product_ids := some old_ids }).1.sequence = st.sequence ∧
     (update st { old_product_ids := some old_ids }).1.last_match_trade_id
        = st.last_match_trade_id) := by
  refine ⟨?_, ?_, ?_⟩
  · intro hv
    simp [on_response, hv]
  · intro hv hlk
    simp [on_response, hv, hlk]
  · simp only [update]
    exact foldRemove_fields old_ids st

/-- Claim C6, witness: an event for the unknown pair `Y` raises. -/
theorem c6_unknown_and_removal_witness :
    on_response ⟨fun _ => 0, fun _ => []⟩ 0
        ⟨[("X", 7)], [("X", none)], ["X"], false, 0, []⟩
        { product_id := some "Y" } = .error () :=
  (c6_unknown_and_removal ⟨fun _ => 0, fun _ => []⟩ 0
    ⟨[("X", 7)], [("X", none)], ["X"], false, 0, []⟩
    { product_id := some "Y" } "Y" []).2.1 rfl rfl

/-- Claim C6, counterexample to the claim as stated: an event for the
unsubscribed pair `ETH-USD` raises `KeyError` instead of being silently
ignored, and unsubscribing `BTC-USD` leaves its tracker entry in
`_sequence` while removing it from `product_ids`. -/
theorem c6_unknown_raises :
    on_response ⟨fun _ => 0, fun _ => []⟩ 0
        ⟨[("BTC-USD", 3)], [("BTC-USD", none)], ["BTC-USD"], false, 0, []⟩
        { product_id := some "ETH-USD", sequence := some 5 } = .error () ∧
    (update ⟨[("BTC-USD", 3)], [("BTC-USD", none)], ["BTC-USD"], false, 0, []⟩
        { old_product_ids := some ["BTC-USD"] }).1.sequence = [("BTC-USD", 3)] ∧
    (update ⟨[("BTC-USD", 3)], [("BTC-USD", none)], ["BTC-USD"], false, 0, []⟩
        { old_product_ids := some ["BTC-USD"] }).1.product_ids = [] := by
  refine ⟨rfl, rfl, rfl⟩

/- ## Backup pipeline lemmas -/

theorem exceptPath_storage (p : Bool) (s : BState) :
    (exceptPath p s).storage = s.storage := by
  rw [exceptPath]; split_ifs <;> rfl

theorem exceptPath_table (p : Bool) (s : BState) :
    (exceptPath p s).backup_state_table = s.backup_state_table := by
  rw [exceptPath]; split_ifs <;> rfl

theorem exceptPath_uploads (p : Bool) (s : BState) :
    (exceptPath p s).uploads = s.uploads := by
  rw [exceptPath]; split_ifs <;> rfl

theorem exceptPath_drops (p : Bool) (s : BState) :
    (exceptPath p s).drops = s.drops := by
  rw [exceptPath]; split_ifs <;> rfl

theorem exceptPath_exports (p : Bool) (s : BState) :
    (exceptPath p s).exports = s.exports := by
  rw [exceptPath]; split_ifs <;> rfl

theorem exceptPath_compresses (p : Bool) (s : BState) :
    (exceptPath p s).compresses = s.compresses := by
  rw [exceptPath]; split_ifs <;> rfl

theorem exceptPath_aborted_true (s : BState) : (exceptPath true s).aborted = s.aborted := rfl

theorem pc_recorded_eq (bt : BackupType) (prod : Bool) (now : Int) (env : BEnv) (st : BState)
    (c : String) (hrec : ∃ r ∈ st.backup_state_table, r.col_name = c) :
    processCandidate bt prod now env st c = st := by
  rw [processCandidate]
  by_cases ha : st.aborted
  · rw [if_pos ha]
  · rw [if_neg ha, if_pos]
    simp only [List.any_eq_true, decide_eq_true_eq]
    exact hrec

theorem pc_store_mono (bt : BackupType) (prod : Bool) (now : Int) (env : BEnv) (st : BState)
    (c : String) (r : BRecord) (hr : r ∈ st.backup_state_table) :
    r ∈ (processCandidate bt prod now env st c).backup_state_table := by
  rw [processCandidate]
  split_ifs <;> simp [exceptPath_table, hr]

theorem pc_other (bt : BackupType) (prod : Bool) (now : Int) (env : BEnv) (st : BState)
    (c' c : String) (hne : c' ≠ c) :
    ((processCandidate bt prod now env st c').exports.count c = st.exports.count c) ∧
    ((processCandidate bt prod now env st c').compresses.count c = st.compresses.count c) ∧
    ((processCandidate bt prod now env st c').uploads.count c = st.uploads.count c) ∧
    ((processCandidate bt prod now env st c').drops.count c = st.drops.count c) ∧
    (c ∈ st.storage → c ∈ (processCandidate bt prod now env st c').storage) := by
  rw [processCandidate]
  split_ifs <;>
    simp [exceptPath_storage, exceptPath_uploads, exceptPath_drops, exceptPath_exports,
      exceptPath_compresses, List.count_append, List.count_cons, List.count_nil, hne,
      List.mem_erase_of_ne (Ne.symm hne)]

theorem pc_inv (bt : BackupType) (prod : Bool) (now : Int) (env : BEnv) (st : BState)
    (c : String) (hdf : env.dropFails c = false)
    (hndS : st.storage.Nodup) (hndU : st.uploads.Nodup)
    (hUS : ∀ x ∈ st.uploads, x ∉ st.storage) (hc : c ∈ st.storage) :
    ((processCandidate bt prod now env st c).storage.Nodup) ∧
    ((processCandidate bt prod now env st c).uploads.Nodup) ∧
    (∀ x ∈ (processCandidate bt prod now env st c).uploads,
      x ∉ (processCandidate bt prod now env st c).storage) ∧
    (∀ y, y ≠ c → y ∈ st.storage → y ∈ (processCandidate bt prod now env st c).storage) := by
  have hcu : c ∉ st.uploads := fun hmem => hUS c hmem hc
  rw [processCandidate]
  split_ifs with h1 h2 h3 h4 h5 h6 h7 h8 <;>
    (try simp only [exceptPath_storage, exceptPath_uploads]) <;>
    (try exact ⟨hndS, hndU, hUS, fun y _ hy => hy⟩)
  · rw [hdf] at h7
    cases h7
  · refine ⟨hndS.erase c, ?_, ?_, fun y hy hys => List.mem_erase_of_ne hy |>.mpr hys⟩
    · simp [List.nodup_append, hndU, hcu]
    · intro x hx
      rcases List.mem_append.mp hx with hx | hx
      · intro hmem
        exact hUS x hx (List.mem_of_mem_erase hmem)
      · obtain rfl : x = c := by simpa using hx
        intro hmem
        exact absurd rfl ((hndS.mem_erase_iff.mp hmem).1)
  · rw [hdf] at h8
    cases h8
  · refine ⟨hndS.erase c, ?_, ?_, fun y hy hys => List.mem_erase_of_ne hy |>.mpr hys⟩
    · simp [List.nodup_append, hndU, hcu]
    · intro x hx
      rcases List.mem_append.mp hx with hx | hx
      · intro hmem
        exact hUS x hx (List.mem_of_mem_erase hmem)
      · obtain rfl : x = c := by simpa using hx
        intro hmem
        exact absurd rfl ((hndS.mem_erase_iff.mp hmem).1)

theorem fold_recorded_skip (bt : BackupType) (prod : Bool) (now : Int) (env : BEnv) :
    ∀ (cands : List String) (st : BState) (c : String),
    (∃ r ∈ st.backup_state_table, r.col_name = c) →
    ((cands.foldl (processCandidate bt prod now env) st).exports.count c
        = st.exports.count c) ∧
    ((cands.foldl (processCandidate bt prod now env) st).compresses.count c
        = st.compresses.count c) ∧
    ((cands.foldl (processCandidate bt prod now env) st).uploads.count c
        = st.uploads.count c) ∧
    ((cands.foldl (processCandidate bt prod now env) st).drops.count c
        = st.drops.count c) ∧
    (c ∈ st.storage → c ∈ (cands.foldl (processCandidate bt prod now env) st).storage) := by
  intro cands
  induction cands with
  | nil => exact fun st c _ => ⟨rfl, rfl, rfl, rfl, fun h => h⟩
  | cons c' rest ih =>
    intro st c hrec
    rw [List.foldl_cons]
    by_cases hcc : c' = c
    · subst hcc
      rw [pc_recorded_eq bt prod now env st c' hrec]
      exact ih st c' hrec
    · have hrec1 : ∃ r ∈ (processCandidate bt prod now env st c').backup_state_table,
          r.col_name = c := by
        obtain ⟨r, hr, hrc⟩ := hrec
        exact ⟨r, pc_store_mono bt prod now env st c' r hr, hrc⟩
      obtain ⟨he, hco, hu, hd, hs⟩ := ih (processCandidate bt prod now env st c') c hrec1
      obtain ⟨pe, pco, pu, pd, ps⟩ := pc_other bt prod now env st c' c hcc
      exact ⟨he.trans pe, hco.trans pco, hu.trans pu, hd.trans pd, fun hm => hs (ps hm)⟩

theorem fold_inv (bt : BackupType) (prod : Bool) (now : Int) (env : BEnv) :
    ∀ (cands : List String) (st : BState),
    cands.Nodup → (∀ c ∈ cands, c ∈ st.storage) → (∀ c, env.dropFails c = false) →
    st.storage.Nodup → st.uploads.Nodup → (∀ x ∈ st.uploads, x ∉ st.storage) →
    ((cands.foldl (processCandidate bt prod now env) st).storage.Nodup) ∧
    ((cands.foldl (processCandidate bt prod now env) st).uploads.Nodup) ∧
    (∀ x ∈ (cands.foldl (processCandidate bt prod now env) st).uploads,
      x ∉ (cands.foldl (processCandidate bt prod now env) st).storage) := by
  intro cands
  induction cands with
  | nil => exact fun st _ _ _ h1 h2 h3 => ⟨h1, h2, h3⟩
  | cons c rest ih =>
    intro st hnd hsub hdf hndS hndU hUS
    rw [List.foldl_cons]
    obtain ⟨i1, i2, i3, i4⟩ := pc_inv bt prod now env st c (hdf c) hndS hndU hUS
      (hsub c (by simp))
    refine ih (processCandidate bt prod now env st c) (List.Nodup.of_cons hnd) ?_ hdf i1 i2 i3
    intro c'' hc''
    have hne : c'' ≠ c := by
      rintro rfl
      exact (List.nodup_cons.mp hnd).1 hc''
    exact i4 c'' hne (hsub c'' (by simp [hc'']))

theorem cycles_uploads_nodup (bt : BackupType) (prod : Bool) (now : Int) :
    ∀ (cycles : List (BEnv × List String)) (st : BState),
    cyclesOK bt prod now st cycles →
    st.storage.Nodup → st.uploads.Nodup → (∀ x ∈ st.uploads, x ∉ st.storage) →
    ((runCycles bt prod now st cycles).uploads.Nodup) ∧
    ((runCycles bt prod now st cycles).storage.Nodup) ∧
    (∀ x ∈ (runCycles bt prod now st cycles).uploads,
      x ∉ (runCycles bt prod now st cycles).storage) := by
  intro cycles
  induction cycles with
  | nil => exact fun st _ h1 h2 h3 => ⟨h2, h1, h3⟩
  | cons cy rest ih =>
    obtain ⟨env, cands⟩ := cy
    intro st hok hndS hndU hUS
    obtain ⟨hnd, hsub, hdf, hrest⟩ := hok
    rw [runCycles]
    have hstep := fold_inv bt prod now env cands
      { st with backed_up_info := [], aborted := false } hnd hsub hdf hndS hndU hUS
    exact ih (backup_collection bt prod now env st cands) hrest hstep.1 hstep.2.1 hstep.2.2

/-- Claim C4 (amended): a bucket already recorded in the backup-state store
is skipped by a non-overwrite cycle — no export, compression, upload or
drop of it happens and it stays in storage; and provided the drop step
never raises, at most one successful upload of any bucket name is performed
over the whole process lifetime.  (If a drop raises, the bucket is neither
recorded nor removed, and the next cycle ships it a second time; see the
counterexample.) -/
theorem c4_no_reship (bt : BackupType) (prod : Bool) (now : Int) :
    (∀ (env : BEnv) (st : BState) (cands : List String) (c : String),
      (∃ r ∈ st.backup_state_table, r.col_name = c) →
      ((backup_collection bt prod now env st cands).exports.count c = st.exports.count c) ∧
      ((backup_collection bt prod now env st cands).compresses.count c
          = st.compresses.count c) ∧
      ((backup_collection bt prod now env st cands).uploads.count c = st.uploads.count c) ∧
      ((backup_collection bt prod now env st cands).drops.count c = st.drops.count c) ∧
      (c ∈ st.storage → c ∈ (backup_collection bt prod now env st cands).storage)) ∧
    (∀ (st : BState) (cycles : List (BEnv × List String)),
      st.uploads = [] → st.storage.Nodup → cyclesOK bt prod now st cycles →
      ∀ c, (runCycles bt prod now st cycles).uploads.count c ≤ 1) := by
  constructor
  · intro env st cands c hrec
    exact fold_recorded_skip bt prod now env cands
      { st with backed_up_info := [], aborted := false } c hrec
  · intro st cycles hu hndS hok c
    have h := cycles_uploads_nodup bt prod now cycles st hok hndS
      (by rw [hu]; exact List.nodup_nil) (by rw [hu]; intro x hx; cases hx)
    exact List.nodup_iff_count_le_one.mp h.1 c

/-- Claim C4, witness: a recorded bucket produces no upload, and a
well-formed single-cycle run uploads each name at most once. -/
theorem c4_no_reship_witness :
    ((backup_collection .local true 0
        ⟨fun _ => false, fun _ => false, fun _ => false, fun _ => false⟩
        ⟨["full_a", "full_b"], [⟨"full_a", 0⟩], [], [], [], [], [], false⟩
        ["full_a"]).uploads.count "full_a" = ([] : List String).count "full_a") ∧
    (∀ c, (runCycles .local true 0 ⟨["full_a", "full_b"], [], [], [], [], [], [], false⟩
        [(⟨fun _ => false, fun _ => false, fun _ => false, fun _ => false⟩, ["full_a"])]
      ).uploads.count c ≤ 1) := by
  constructor
  · have h := ((c4_no_reship .local true 0).1
      ⟨fun _ => false, fun _ => false, fun _ => false, fun _ => false⟩
      ⟨["full_a", "full_b"], [⟨"full_a", 0⟩], [], [], [], [], [], false⟩
      ["full_a"] "full_a" ⟨⟨"full_a", 0⟩, by simp, rfl⟩).2.2.1
    exact h
  · exact (c4_no_reship .local true 0).2 ⟨["full_a", "full_b"], [], [], [], [], [], [], false⟩
      [(⟨fun _ => false, fun _ => false, fun _ => false, fun _ => false⟩, ["full_a"])]
      rfl (by decide) ⟨by decide, by decide, fun c => rfl, trivial⟩

/-- Claim C4, counterexample to the unconditional at-most-one-ship claim:
in `aws` mode a drop failure leaves the bucket unrecorded and still in
storage, so the next cycle uploads it again — two successful uploads of
`b1` in one process lifetime. -/
theorem c4_reupload_after_drop_failure :
    ¬((runCycles .aws true 0 ⟨["b1", "keep"], [], [], [], [], [], [], false⟩
        [(⟨fun _ => false, fun _ => false, fun _ => false, fun _ => true⟩, ["b1"]),
         (⟨fun _ => false, fun _ => false, fun _ => false, fun _ => false⟩, ["b1"])]
      ).uploads.count "b1" ≤ 1) := by
  decide

theorem pc_drops_uploads (bt : BackupType) (prod : Bool) (now : Int) (env : BEnv)
    (st : BState) (c : String)
    (hdu : ∀ x ∈ st.drops, x ∈ st.uploads) :
    ∀ x ∈ (processCandidate bt prod now env st c).drops,
      x ∈ (processCandidate bt prod now env st c).uploads := by
  rw [processCandidate]
  split_ifs <;>
    (try simp only [exceptPath_drops, exceptPath_uploads]) <;>
    intro x hx <;>
    first
      | exact hdu x hx
      | exact List.mem_append.mpr (Or.inl (hdu x hx))
      | (rcases List.mem_append.mp hx with hx' | hx'
         exacts [List.mem_append.mpr (Or.inl (hdu x hx')), List.mem_append.mpr (Or.inr hx')])

theorem pc_fail_keeps_storage (bt : BackupType) (prod : Bool) (now : Int) (env : BEnv)
    (st : BState) (c' c : String)
    (hfail : env.exportFails c = true ∨ env.compressFails c = true ∨ env.shipFails c = true)
    (hc : c ∈ st.storage) : c ∈ (processCandidate bt prod now env st c').storage := by
  rw [processCandidate]
  split_ifs with h1 h2 h3 h4 h5 h6 h7 h8 <;>
    (try simp only [exceptPath_storage]) <;>
    (try exact hc) <;>
    · have hne : c ≠ c' := by
        rintro rfl
        rcases hfail with hf | hf | hf
        · exact h3 hf
        · exact ‹¬env.compressFails c = true› hf
        · exact ‹¬env.shipFails c = true› hf
      exact (List.mem_erase_of_ne hne).mpr hc

theorem pc_aborted_prod (bt : BackupType) (now : Int) (env : BEnv) (st : BState) (c : String) :
    (processCandidate bt true now env st c).aborted = st.aborted := by
  rw [processCandidate]
  split_ifs <;> (try rw [exceptPath_aborted_true]) <;> rfl

/-- Claim C5 (amended): a bucket is dropped from storage only after its
ship step succeeded (every name in the drop log is in the upload log); if
export, compression or ship raises for a bucket, that bucket remains in
storage; and in production mode the per-candidate loop never aborts, so it
continues with the next candidate.  (In non-production mode the exception
is re-raised and the rest of the cycle is skipped; see the
counterexample.) -/
theorem c5_drop_after_ship (bt : BackupType) (prod : Bool) (now : Int) (env : BEnv)
    (st : BState) (cands : List String) :
    ((∀ x ∈ st.drops, x ∈ st.uploads) →
      ∀ x ∈ (backup_collection bt prod now env st cands).drops,
        x ∈ (backup_collection bt prod now env st cands).uploads) ∧
    (∀ c, (env.exportFails c = true ∨ env.compressFails c = true ∨ env.shipFails c = true) →
      c ∈ st.storage → c ∈ (backup_collection bt prod now env st cands).storage) ∧
    (prod = true → (backup_collection bt prod now env st cands).aborted = false) := by
  refine ⟨?_, ?_, ?_⟩
  · intro hdu
    rw [backup_collection]
    generalize hst : ({ st with backed_up_info := [], aborted := false } : BState) = st0
    have hdu0 : ∀ x ∈ st0.drops, x ∈ st0.uploads := by rw [← hst]; exact hdu
    clear hst hdu
    induction cands generalizing st0 with
    | nil => exact hdu0
    | cons c rest ih =>
      rw [List.foldl_cons]
      exact ih _ (pc_drops_uploads bt prod now env st0 c hdu0)
  · intro c hfail hc
    rw [backup_collection]
    generalize hst : ({ st with backed_up_info := [], aborted := false } : BState) = st0
    have hc0 : c ∈ st0.storage := by rw [← hst]; exact hc
    clear hst hc
    induction cands generalizing st0 with
    | nil => exact hc0
    | cons c' rest ih =>
      rw [List.foldl_cons]
      exact ih _ (pc_fail_keeps_storage bt prod now env st0 c' c hfail hc0)
  · rintro rfl
    rw [backup_collection]
    generalize hst : ({ st with backed_up_info := [], aborted := false } : BState) = st0
    have hab : st0.aborted = false := by rw [← hst]
    clear hst
    induction cands generalizing st0 with
    | nil => exact hab
    | cons c rest ih =>
      rw [List.foldl_cons]
      exact ih _ ((pc_aborted_prod bt now env st0 c).trans hab)

/-- Claim C5, witness: a candidate whose export fails stays in storage. -/
theorem c5_drop_after_ship_witness :
    "c1" ∈ (backup_collection .local true 0
        ⟨fun c => c == "c1", fun _ => false, fun _ => false, fun _ => false⟩
        ⟨["c1", "c2"], [], [], [], [], [], [], false⟩ ["c1", "c2"]).storage :=
  (c5_drop_after_ship .local true 0
    ⟨fun c => c == "c1", fun _ => false, fun _ => false, fun _ => false⟩
    ⟨["c1", "c2"], [], [], [], [], [], [], false⟩ ["c1", "c2"]).2.1 "c1"
    (Or.inl rfl) (by decide)

/-- Claim C5, counterexample to the unconditional continue-on-exception
claim: in non-production mode the first candidate's export failure
re-raises, aborting the cycle, so the healthy second candidate is never
shipped — while the same run in production mode ships it. -/
theorem c5_nonprod_aborts :
    ((backup_collection .local false 0
        ⟨fun c => c == "c1", fun _ => false, fun _ => false, fun _ => false⟩
        ⟨["c1", "c2"], [], [], [], [], [], [], false⟩ ["c1", "c2"]).uploads = [] ∧
      (backup_collection .local false 0
        ⟨fun c => c == "c1", fun _ => false, fun _ => false, fun _ => false⟩
        ⟨["c1", "c2"], [], [], [], [], [], [], false⟩ ["c1", "c2"]).aborted = true) ∧
    (backup_collection .local true 0
        ⟨fun c => c == "c1", fun _ => false, fun _ => false, fun _ => false⟩
        ⟨["c1", "c2"], [], [], [], [], [], [], false⟩ ["c1", "c2"]).uploads = ["c2"] := by
  refine ⟨⟨?_, ?_⟩, ?_⟩ <;> decide

/-- Claim C8 (code bug): after a successful ship the code records
`{col_name, time}` only on the local path — in `aws` mode
`backed_up_info.append` is never reached, so nothing is recorded; and on
the local path `insert_multiple(backed_up_info)` re-inserts the
accumulated list, so with two candidates the first is recorded twice.
Both contradict the claimed insert-if-absent record in both modes. -/
theorem c8_record_divergence :
    ((backup_collection .aws true 0
        ⟨fun _ => false, fun _ => false, fun _ => false, fun _ => false⟩
        ⟨["b1"], [], [], [], [], [], [], false⟩ ["b1"]).backup_state_table = [] ∧
      (backup_collection .aws true 0
        ⟨fun _ => false, fun _ => false, fun _ => false, fun _ => false⟩
        ⟨["b1"], [], [], [], [], [], [], false⟩ ["b1"]).uploads = ["b1"]) ∧
    (backup_collection .local true 0
        ⟨fun _ => false, fun _ => false, fun _ => false, fun _ => false⟩
        ⟨["b1", "b2", "keep"], [], [], [], [], [], [], false⟩
        ["b1", "b2"]).backup_state_table = [⟨"b1", 0⟩, ⟨"b1", 0⟩, ⟨"b2", 0⟩] := by
  refine ⟨⟨?_, ?_⟩, ?_⟩ <;> decide
